import Mathlib

/-!
Verification development for the signal engine of the futures alert
dashboard (`src/app.py`).

Modelling conventions, stated once:
* A Python float is modelled as `Option ℚ`: `some q` is a finite value,
  `none` is a non-finite value (`nan`/`inf`).  `np.isfinite` filtering
  becomes `List.filterMap id`.
* Functions that return `float("nan")` to signal "undefined" return
  `none` here.
* The sample standard deviation involves a square root, so the z-score
  value lives in `ℝ`; every guard and every other quantity is rational.
* Python negative-index slicing `xs[:-k]` and `xs[-k:]` (including the
  `k = 0` quirk, where `xs[:-0] = []` and `xs[-0:] = xs`) is modelled by
  `pyDropLast` and `pyTakeLast`.
* `collections.deque(maxlen = c)` is modelled by `SeriesBuffer`.
* Wall-clock time (`time.time()`) is an explicit rational argument.
-/

/-- The last `n` elements of a list (all of it when `n ≥ length`).
Models the retained suffix of a `deque` with `maxlen = n`. -/
def takeLast {α : Type} (l : List α) (n : ℕ) : List α :=
  l.drop (l.length - n)

/-- Python slice `l[:-k]`.  For `k = 0` Python reads `l[:0] = []`. -/
def pyDropLast {α : Type} (l : List α) (k : ℕ) : List α :=
  if k = 0 then [] else l.take (l.length - k)

/-- Python slice `l[-k:]`.  For `k = 0` Python reads `l[0:] = l`. -/
def pyTakeLast {α : Type} (l : List α) (k : ℕ) : List α :=
  if k = 0 then l else takeLast l k

/-- The finite entries of a float list, in order (`arr[np.isfinite(arr)]`). -/
def finiteVals (values : List (Option ℚ)) : List ℚ :=
  values.filterMap id

/-- Model of `np.max` of a nonempty list.  `np.max` raises on an empty array; the
callers below only apply it behind guards that keep the list nonempty, and
the default `0` returned on `[]` is never reached from guarded code. -/
def listMax : List ℚ → ℚ
  | [] => 0
  | x :: xs => xs.foldl max x

/-- Model of `np.min` of a nonempty list, with the same empty-list convention as
`listMax`. -/
def listMin : List ℚ → ℚ
  | [] => 0
  | x :: xs => xs.foldl min x

/-- Model of `arr.mean()`.  (On `[]` this is `0 / 0 = 0` in `ℚ`; all uses are
guarded so the empty case is never reached.) -/
def listMean (l : List ℚ) : ℚ :=
  l.sum / (l.length : ℚ)

/-- Model of `arr.var(ddof = 1)`: the unbiased sample variance, divisor `n - 1`.
The source computes `arr.std(ddof = 1)`, which is its square root. -/
def sampleVar (l : List ℚ) : ℚ :=
  (l.map (fun x => (x - listMean l) ^ 2)).sum / ((l.length : ℚ) - 1)

/-- Model of `np.abs(np.diff(arr))`: absolute consecutive differences. -/
def absDiffs : List ℚ → List ℚ
  | x :: y :: rest => |y - x| :: absDiffs (y :: rest)
  | _ => []

open Classical in
/-- Model of `zscore_from_list` (src/app.py lines 126-135): filter to finite
samples; fewer than 20 of them, or a zero sample standard deviation,
yields the undefined sentinel (`none`); otherwise the score is
`(arr[-1] - arr.mean()) / arr.std(ddof = 1)`.  The standard deviation is
`Real.sqrt` of the rational sample variance, hence the `ℝ` codomain. -/
noncomputable def zscore_from_list (values : List (Option ℚ)) : Option ℝ :=
  let arr := finiteVals values
  if arr.length < 20 then none
  else if Real.sqrt ((sampleVar arr : ℚ) : ℝ) = 0 then none
  else some (((arr.getLastD 0 - listMean arr : ℚ) : ℝ) /
    Real.sqrt ((sampleVar arr : ℚ) : ℝ))

/-- Model of `atr_proxy_from_prices` (src/app.py lines 138-147): filter to finite
samples; fewer than `lookback + 2` of them yields `none`; otherwise the
mean of `np.abs(np.diff(arr[-(lookback+1):]))`, with an empty diff list
also mapped to `none`. -/
def atr_proxy_from_prices (prices : List (Option ℚ)) (lookback : ℕ) : Option ℚ :=
  let arr := finiteVals prices
  if arr.length < lookback + 2 then none
  else
    let diffs := absDiffs (pyTakeLast arr (lookback + 1))
    if diffs.length = 0 then none
    else some (listMean diffs)

/-- Signal direction, source strings "LONG" / "SHORT". -/
inductive Dir where
  | LONG
  | SHORT
  deriving DecidableEq

/-- The distinct human-readable `info` strings returned by
`breakout_signal`, as an enumeration (the Chinese rationale text carries
no further claim-relevant structure beyond being pairwise distinct). -/
inductive BInfo where
  /-- Source string "样本不足（开盘后需要积累一段数据）". -/
  | insufficientSamples
  /-- Source string "样本不足（base不足）". -/
  | insufficientBase
  /-- Source string "未触发突破确认". -/
  | notConfirmed
  /-- Source string "突破上沿 ... 连续K次确认站上 ...". -/
  | brokeUp
  /-- Source string "跌破下沿 ... 连续K次确认站下 ...". -/
  | brokeDown
  deriving DecidableEq

/-- The tuple returned by `breakout_signal`:
`(direction, entry, stop, tp, level, info)`.  `none` components model
Python `None` (and, for `tp`, the `float("nan")` of a non-positive
risk). -/
structure BreakoutResult where
  direction : Option Dir
  entry : Option ℚ
  stop : Option ℚ
  tp : Option ℚ
  level : Option ℚ
  info : BInfo
  deriving DecidableEq

/-- Long stop (src/app.py lines 190-192): `stop1 = H`,
`stop2 = H - atr_mult_stop * atrp` when the proxy is finite else `stop1`,
final stop `min stop1 stop2`. -/
def stopLong (H atr_mult_stop : ℚ) (atrp : Option ℚ) : ℚ :=
  min H (match atrp with
    | some a => H - atr_mult_stop * a
    | none => H)

/-- Short stop (src/app.py lines 198-200): mirror of `stopLong` with
`max` and `L + atr_mult_stop * atrp`. -/
def stopShort (L atr_mult_stop : ℚ) (atrp : Option ℚ) : ℚ :=
  max L (match atrp with
    | some a => L + atr_mult_stop * a
    | none => L)

/-- Long take-profit (src/app.py line 194):
`entry + rr_take * R if R > 0 else nan` with `R = entry - stop`. -/
def tpLong (entry stop rr_take : ℚ) : Option ℚ :=
  if 0 < entry - stop then some (entry + rr_take * (entry - stop)) else none

/-- Short take-profit (src/app.py line 202):
`entry - rr_take * R if R > 0 else nan` with `R = stop - entry`. -/
def tpShort (entry stop rr_take : ℚ) : Option ℚ :=
  if 0 < stop - entry then some (entry - rr_take * (stop - entry)) else none

/-- Model of `breakout_signal` (src/app.py lines 150-206).  Both confirmation
conditions are evaluated; when `long_ok` holds the direction is LONG
regardless of `short_ok` (`"LONG" if long_ok else "SHORT"`), which the
branch order below reproduces. -/
def breakout_signal (prices : List (Option ℚ)) (window confirm_k : ℕ)
    (buffer : ℚ) (atr_lookback : ℕ) (atr_mult_stop rr_take : ℚ) :
    BreakoutResult :=
  let series := finiteVals prices
  if series.length < window + confirm_k + 5 then
    ⟨none, none, none, none, none, .insufficientSamples⟩
  else if (pyDropLast series confirm_k).length < window then
    ⟨none, none, none, none, none, .insufficientBase⟩
  else
    let base_window := pyTakeLast (pyDropLast series confirm_k) window
    let H := listMax base_window
    let L := listMin base_window
    let entry := series.getLastD 0
    let atrp := atr_proxy_from_prices (series.map some) atr_lookback
    if ∀ x ∈ pyTakeLast series confirm_k, H + buffer < x then
      let stop := stopLong H atr_mult_stop atrp
      ⟨some .LONG, some entry, some stop, tpLong entry stop rr_take,
        some H, .brokeUp⟩
    else if ∀ x ∈ pyTakeLast series confirm_k, x < L - buffer then
      let stop := stopShort L atr_mult_stop atrp
      ⟨some .SHORT, some entry, some stop, tpShort entry stop rr_take,
        some L, .brokeDown⟩
    else
      ⟨none, none, none, none, none, .notConfirmed⟩

/-- A `collections.deque(maxlen = capacity)` of finite price samples,
oldest first. -/
structure SeriesBuffer where
  capacity : ℕ
  data : List ℚ
  deriving DecidableEq

/-- Model of `deque.append`: add on the right; once `capacity` is reached the
oldest (leftmost) element is evicted, so the retained content is the
last `capacity` elements. -/
def SeriesBuffer.append (b : SeriesBuffer) (v : ℚ) : SeriesBuffer :=
  ⟨b.capacity, takeLast (b.data ++ [v]) b.capacity⟩

/-- The guarded append of the poll loop (src/app.py lines 341-346 and
431-433): `if np.isfinite(v): buf.append(float(v))`.  Non-finite samples
are discarded and never stored. -/
def SeriesBuffer.appendFinite (b : SeriesBuffer) (v : Option ℚ) : SeriesBuffer :=
  match v with
  | some x => b.append x
  | none => b

/-- A spread value (src/app.py lines 425-429):
`A - B if np.isfinite(A) and np.isfinite(B) else float("nan")`. -/
def spread (a b : Option ℚ) : Option ℚ :=
  match a, b with
  | some x, some y => some (x - y)
  | _, _ => none

/-- One spread's per-cycle store update (src/app.py lines 431-433): the
spread value is appended only when it is finite, i.e. only when both
underlying prices were finite. -/
def appendSpread (buf : SeriesBuffer) (a b : Option ℚ) : SeriesBuffer :=
  match spread a b with
  | some v => buf.append v
  | none => buf

/-- The three spread history deques `hist_spread` (src/app.py lines
251-256), keyed "Y-P", "OI-Y", "OI-P". -/
structure SpreadState where
  yp : SeriesBuffer
  oiy : SeriesBuffer
  oip : SeriesBuffer
  deriving DecidableEq

/-- The spread section of one poll cycle (src/app.py lines 425-433). -/
def updateSpreads (s : SpreadState) (Y P OI : Option ℚ) : SpreadState :=
  ⟨appendSpread s.yp Y P, appendSpread s.oiy OI Y, appendSpread s.oip OI P⟩

/-- First value stored under a key in an association-list model of a
Python dict. -/
def dictFind {K V : Type} [DecidableEq K] : List (K × V) → K → Option V
  | [], _ => none
  | e :: rest, k => if e.1 = k then some e.2 else dictFind rest k

/-- Model of `d.get(k, default)`. -/
def dictGet {K V : Type} [DecidableEq K] (t : List (K × V)) (k : K) (d : V) : V :=
  (dictFind t k).getD d

/-- Model of `d[k] = v`: the key now maps to `v` and every other key is
unchanged. -/
def dictInsert {K V : Type} [DecidableEq K] (t : List (K × V)) (k : K) (v : V) :
    List (K × V) :=
  (k, v) :: t.filter (fun e => decide (e.1 ≠ k))

/-- The debounce gate shared verbatim by `can_emit_signal` (src/app.py
lines 367-374) and `should_alert` (lines 449-455):
`last_ts = table.get(key, 0.0)`; if `now_ts - last_ts >= cooldown`,
record `now_ts` under `key` and return `True`, else return `False` and
leave the table unchanged.  Wall-clock time is the explicit `now_ts`
argument; the updated table is returned alongside the flag. -/
def may_emit {K : Type} [DecidableEq K] (table : List (K × ℚ)) (key : K)
    (cooldown now_ts : ℚ) : Bool × List (K × ℚ) :=
  if cooldown ≤ now_ts - dictGet table key 0 then
    (true, dictInsert table key now_ts)
  else
    (false, table)

/-- Model of `can_emit_signal` (src/app.py lines 367-374): the debounce gate on
the breakout cooldown table, keyed `(group, symbol, direction)`. -/
def can_emit_signal (table : List ((String × String × String) × ℚ))
    (group_ sym_ dir_ : String) (cooldown now_ts : ℚ) :
    Bool × List ((String × String × String) × ℚ) :=
  may_emit table (group_, sym_, dir_) cooldown now_ts

/-- Model of `should_alert` (src/app.py lines 449-455): the debounce gate on the
spread-alert cooldown table, keyed by a string. -/
def should_alert (table : List (String × ℚ)) (key : String)
    (cooldown now_ts : ℚ) : Bool × List (String × ℚ) :=
  may_emit table key cooldown now_ts

/-- The mutable session state of the app (src/app.py lines 251-262):
per-product price history, the three spread histories, and the two
cooldown tables.  Products are keyed by their group letter
("Y" / "P" / "OI" / "M"); the symbol-renaming between product letters
and vendor codes is presentation detail. -/
structure AppState where
  price_hist : List (String × SeriesBuffer)
  hist_spread : SpreadState
  last_signal_ts : List ((String × String × String) × ℚ)
  last_alert_ts : List (String × ℚ)

/-- The sidebar configuration consumed by one tick (src/app.py lines
214-242). -/
structure Config where
  group : String
  signal_symbol : String
  window : ℕ
  confirm_k : ℕ
  buffer : ℚ
  atr_lb : ℕ
  atr_mult_stop : ℚ
  rr_take : ℚ
  cooldown_sec : ℚ
  z_win : ℕ
  z_th : ℝ

/-- Render a direction the way the cooldown key does. -/
def dirStr : Dir → String
  | .LONG => "LONG"
  | .SHORT => "SHORT"

open Classical in
/-- One spread alert step (src/app.py lines 457-469): compute the
z-score of the windowed spread history; when it is defined and at least
`z_th` in absolute value, run `should_alert` on the key
`group-name-polarity` with the fixed 60-second cooldown, keeping the
updated table. -/
noncomputable def alertStep (cfg : Config) (now : ℚ) (tbl : List (String × ℚ))
    (nm : String) (buf : SeriesBuffer) : List (String × ℚ) :=
  let series := pyTakeLast buf.data cfg.z_win
  match zscore_from_list (series.map some) with
  | none => tbl
  | some z =>
    if cfg.z_th ≤ |z| then
      (should_alert tbl
        (cfg.group ++ "-" ++ nm ++ "-" ++ (if 0 < z then "high" else "low"))
        60 now).2
    else tbl

open Classical in
/-- The state-mutating part of one successful poll cycle (src/app.py
lines 341-469), in source order: append the finite latest quotes to the
price histories; evaluate `breakout_signal` on the focus instrument and,
when a direction is emitted, run the breakout debouncer; append the
finite spreads; run the z-score alert debouncer for each of the three
spreads on the post-append histories. -/
noncomputable def processTick (cfg : Config) (s : AppState)
    (quotes : List (String × Option ℚ)) (now : ℚ) : AppState :=
  let ph := s.price_hist.map
    (fun e => (e.1, SeriesBuffer.appendFinite e.2 (dictGet quotes e.1 none)))
  let prices := (dictGet ph cfg.signal_symbol ⟨8000, []⟩).data
  let r := breakout_signal (prices.map some) cfg.window cfg.confirm_k
    cfg.buffer cfg.atr_lb cfg.atr_mult_stop cfg.rr_take
  let sig :=
    match r.direction with
    | some d =>
      (can_emit_signal s.last_signal_ts cfg.group cfg.signal_symbol (dirStr d)
        cfg.cooldown_sec now).2
    | none => s.last_signal_ts
  let Y := dictGet quotes "Y" none
  let P := dictGet quotes "P" none
  let OI := dictGet quotes "OI" none
  let hs := updateSpreads s.hist_spread Y P OI
  let la := alertStep cfg now
    (alertStep cfg now (alertStep cfg now s.last_alert_ts "Y-P" hs.yp)
      "OI-Y" hs.oiy)
    "OI-P" hs.oip
  ⟨ph, hs, sig, la⟩

open Classical in
/-- One poll cycle against a fallible quote source (src/app.py lines
290-297): a raised fetch error is reported and the script is stopped
(`st.stop()`) before any session state is touched, so the tick degrades
to the identity on the state; a successful fetch runs the pipeline. -/
noncomputable def runTick (cfg : Config) (s : AppState) (now : ℚ)
    (fetched : Except String (List (String × Option ℚ))) : AppState :=
  match fetched with
  | .error _ => s
  | .ok quotes => processTick cfg s quotes now

theorem length_takeLast {α : Type} (l : List α) (n : ℕ) :
    (takeLast l n).length = min n l.length := by
  simp only [takeLast, List.length_drop]
  omega

theorem takeLast_nil {α : Type} (n : ℕ) : takeLast ([] : List α) n = [] := by
  simp [takeLast]

theorem takeLast_zero {α : Type} (l : List α) : takeLast l 0 = [] := by
  simp [takeLast]

theorem takeLast_takeLast {α : Type} (l : List α) (a b : ℕ) :
    takeLast (takeLast l b) a = takeLast l (min a b) := by
  simp only [takeLast, List.drop_drop, List.length_drop]
  congr 1
  omega

theorem takeLast_append_one {α : Type} (l : List α) (v : α) (n : ℕ) (h : 1 ≤ n) :
    takeLast (l ++ [v]) n = takeLast l (n - 1) ++ [v] := by
  simp only [takeLast, List.length_append, List.length_cons, List.length_nil]
  rw [List.drop_append_eq_append_drop]
  have h1 : l.length + (0 + 1) - n = l.length - (n - 1) := by omega
  rw [h1]
  have h2 : l.length - (n - 1) - l.length = 0 := by omega
  rw [h2]
  rfl

theorem takeLast_append_stable {α : Type} (l : List α) (v : α) (n : ℕ) :
    takeLast (takeLast l n ++ [v]) n = takeLast (l ++ [v]) n := by
  cases n with
  | zero => simp [takeLast_zero]
  | succ m =>
    rw [takeLast_append_one _ _ _ (Nat.succ_le_succ (Nat.zero_le m)),
      takeLast_append_one _ _ _ (Nat.succ_le_succ (Nat.zero_le m)),
      takeLast_takeLast]
    have hmin : min (m + 1 - 1) (m + 1) = m + 1 - 1 := by omega
    rw [hmin]

theorem getLastD_mem {α : Type} (l : List α) (d : α) (h : l ≠ []) :
    l.getLastD d ∈ l := by
  rw [List.getLastD_eq_getLast?, List.getLast?_eq_getLast l h]
  exact List.getLast_mem h

theorem getLastD_drop {α : Type} (l : List α) (n : ℕ) (hn : n < l.length) (d : α) :
    (l.drop n).getLastD d = l.getLastD d := by
  induction l generalizing n with
  | nil => simp at hn
  | cons x xs ih =>
    cases n with
    | zero => rfl
    | succ m =>
      have hm : m < xs.length := by simpa using hn
      rw [List.drop_succ_cons, ih m hm]
      have hne : xs ≠ [] := by
        intro hh
        rw [hh] at hm
        simp at hm
      cases xs with
      | nil => exact absurd rfl hne
      | cons y ys => rfl

theorem length_pyDropLast {α : Type} (l : List α) (k : ℕ) (h : 1 ≤ k) :
    (pyDropLast l k).length = l.length - k := by
  have hk : ¬ k = 0 := by omega
  simp [pyDropLast, hk, List.length_take]

theorem pyTakeLast_pos {α : Type} (l : List α) (k : ℕ) (h : 1 ≤ k) :
    pyTakeLast l k = takeLast l k := by
  have hk : ¬ k = 0 := by omega
  simp [pyTakeLast, hk]

theorem getLastD_mem_pyTakeLast {α : Type} (l : List α) (k : ℕ) (d : α)
    (hl : l ≠ []) : l.getLastD d ∈ pyTakeLast l k := by
  cases Nat.eq_zero_or_pos k with
  | inl h0 =>
    subst h0
    simp only [pyTakeLast, if_pos rfl]
    exact getLastD_mem l d hl
  | inr hpos =>
    rw [pyTakeLast_pos l k hpos]
    have hlen : 0 < l.length := List.length_pos.mpr hl
    have h1 : l.length - k < l.length := by omega
    have h2 : l.drop (l.length - k) ≠ [] := by
      intro hh
      have := congrArg List.length hh
      simp only [List.length_drop, List.length_nil] at this
      omega
    unfold takeLast
    rw [← getLastD_drop l (l.length - k) h1 d]
    exact getLastD_mem _ d h2

theorem foldl_appendFinite (cap : ℕ) (xs : List (Option ℚ)) (acc : List ℚ) :
    xs.foldl SeriesBuffer.appendFinite ⟨cap, takeLast acc cap⟩ =
      ⟨cap, takeLast (acc ++ xs.filterMap id) cap⟩ := by
  induction xs generalizing acc with
  | nil => simp
  | cons x xs ih =>
    cases x with
    | none => simpa [SeriesBuffer.appendFinite] using ih acc
    | some v =>
      have step : SeriesBuffer.appendFinite ⟨cap, takeLast acc cap⟩ (some v) =
          ⟨cap, takeLast (acc ++ [v]) cap⟩ := by
        simp [SeriesBuffer.appendFinite, SeriesBuffer.append, takeLast_append_stable]
      rw [List.foldl_cons, step]
      have h2 := ih (acc ++ [v])
      simpa [List.append_assoc] using h2

theorem dictFind_insert_self {K V : Type} [DecidableEq K]
    (t : List (K × V)) (k : K) (v : V) :
    dictFind (dictInsert t k v) k = some v := by
  simp [dictFind, dictInsert]

theorem finiteVals_map_some (l : List ℚ) : finiteVals (l.map some) = l := by
  induction l with
  | nil => rfl
  | cons x xs ih =>
    simp only [finiteVals, List.map_cons, List.filterMap_cons, id] at ih ⊢
    rw [ih]

theorem length_absDiffs (l : List ℚ) : (absDiffs l).length = l.length - 1 := by
  induction l with
  | nil => rfl
  | cons x xs ih =>
    cases xs with
    | nil => rfl
    | cons y ys =>
      simp only [absDiffs, List.length_cons] at ih ⊢
      omega

theorem sampleVar_nonneg (l : List ℚ) : 0 ≤ sampleVar l := by
  cases l with
  | nil => simp [sampleVar, listMean]
  | cons x xs =>
    unfold sampleVar
    apply div_nonneg
    · apply List.sum_nonneg
      intro a ha
      simp only [List.mem_map] at ha
      obtain ⟨b, _, rfl⟩ := ha
      positivity
    · have h1 : 1 ≤ (x :: xs).length := by simp
      have h2 : (1 : ℚ) ≤ ((x :: xs).length : ℚ) := by exact_mod_cast h1
      linarith

theorem sqrt_sampleVar_eq_zero_iff (l : List ℚ) :
    Real.sqrt ((sampleVar l : ℚ) : ℝ) = 0 ↔ sampleVar l = 0 := by
  rw [Real.sqrt_eq_zero']
  constructor
  · intro h
    have h0 : (0 : ℝ) ≤ ((sampleVar l : ℚ) : ℝ) := by
      exact_mod_cast sampleVar_nonneg l
    have h3 : ((sampleVar l : ℚ) : ℝ) = 0 := le_antisymm h h0
    exact_mod_cast h3
  · intro h
    rw [h]
    simp

/-- C2: with fewer than `window + confirm_k + 5` finite samples,
`breakout_signal` returns the dedicated insufficient-sample-size outcome,
and that outcome is distinct from the outcome returned when the
confirmation condition is merely false. -/
theorem c2_insufficient_samples (prices : List (Option ℚ)) (window confirm_k : ℕ)
    (buffer : ℚ) (atr_lookback : ℕ) (atr_mult_stop rr_take : ℚ)
    (h : (finiteVals prices).length < window + confirm_k + 5) :
    breakout_signal prices window confirm_k buffer atr_lookback atr_mult_stop
        rr_take =
      ⟨none, none, none, none, none, BInfo.insufficientSamples⟩ ∧
    (⟨none, none, none, none, none, BInfo.insufficientSamples⟩ : BreakoutResult) ≠
      ⟨none, none, none, none, none, BInfo.notConfirmed⟩ := by
  constructor
  · simp [breakout_signal, h]
  · decide

/-- Witness for C2 at the empty price series. -/
theorem c2_insufficient_samples_witness :
    (finiteVals []).length < 1 + 1 + 5 ∧
    breakout_signal [] 1 1 1 1 1 2 =
      ⟨none, none, none, none, none, BInfo.insufficientSamples⟩ :=
  ⟨by decide, (c2_insufficient_samples [] 1 1 1 1 1 2 (by decide)).1⟩

/-- C4: starting from an empty buffer of any capacity, after any sequence
of tick appends the buffer capacity is unchanged, the contents are
exactly the most recent capacity-many finite appended values in
insertion order (oldest evicted first), and the length never exceeds the
capacity; non-finite values are never stored. -/
theorem c4_rolling_store (cap : ℕ) (xs : List (Option ℚ)) :
    (xs.foldl SeriesBuffer.appendFinite ⟨cap, []⟩).capacity = cap ∧
    (xs.foldl SeriesBuffer.appendFinite ⟨cap, []⟩).data =
      takeLast (xs.filterMap id) cap ∧
    (xs.foldl SeriesBuffer.appendFinite ⟨cap, []⟩).data.length ≤ cap := by
  have h := foldl_appendFinite cap xs []
  rw [takeLast_nil] at h
  simp only [List.nil_append] at h
  rw [h]
  refine ⟨rfl, rfl, ?_⟩
  rw [length_takeLast]
  omega

/-- C6: within a poll cycle, a spread value is appended to its buffer
exactly when both underlying latest prices are finite, in which case the
appended value is their arithmetic difference; otherwise the buffer is
left unchanged and no sentinel is stored. -/
theorem c6_spread_append (buf : SeriesBuffer) (a b : Option ℚ) :
    appendSpread buf a b =
      match a, b with
      | some x, some y => SeriesBuffer.append buf (x - y)
      | some _, none => buf
      | none, _ => buf := by
  cases a <;> cases b <;> rfl

/-- C9: a tick whose quote fetch raises an error leaves every piece of
mutable session state (price histories, spread histories, both cooldown
tables) exactly as it was: `runTick` is the identity on the state for an
error fetch result. -/
theorem c9_fetch_error (cfg : Config) (s : AppState) (now : ℚ) (e : String) :
    runTick cfg s now (Except.error e) = s := rfl

/-- C1: on a series with at least `window + confirm_k + 5` finite samples
(with a positive confirmation count, as the validated configuration
guarantees) in which every one of the last `confirm_k` samples strictly
exceeds `H + buffer`, where `H` is the maximum of the most recent
`window` samples of the series excluding the last `confirm_k`,
`breakout_signal` returns direction LONG, entry = the last sample,
reference level = `H`, stop = `min H (H - atr_mult_stop * atrp)` when the
volatility proxy `atrp` is defined and `H` otherwise, and, whenever
`entry - stop > 0`, target = `entry + rr_take * (entry - stop)`. -/
theorem c1_breakout_long (prices : List (Option ℚ)) (window confirm_k : ℕ)
    (buffer : ℚ) (atr_lookback : ℕ) (atr_mult_stop rr_take : ℚ)
    (hk : 1 ≤ confirm_k)
    (hlen : window + confirm_k + 5 ≤ (finiteVals prices).length)
    (hconf : ∀ x ∈ pyTakeLast (finiteVals prices) confirm_k,
      listMax (pyTakeLast (pyDropLast (finiteVals prices) confirm_k) window)
        + buffer < x) :
    (breakout_signal prices window confirm_k buffer atr_lookback atr_mult_stop
        rr_take).direction = some Dir.LONG ∧
    (breakout_signal prices window confirm_k buffer atr_lookback atr_mult_stop
        rr_take).entry = some ((finiteVals prices).getLastD 0) ∧
    (breakout_signal prices window confirm_k buffer atr_lookback atr_mult_stop
        rr_take).level =
      some (listMax (pyTakeLast (pyDropLast (finiteVals prices) confirm_k) window)) ∧
    (∀ a, atr_proxy_from_prices ((finiteVals prices).map some) atr_lookback = some a →
      (breakout_signal prices window confirm_k buffer atr_lookback atr_mult_stop
          rr_take).stop =
        some (min (listMax (pyTakeLast (pyDropLast (finiteVals prices) confirm_k) window))
          (listMax (pyTakeLast (pyDropLast (finiteVals prices) confirm_k) window)
            - atr_mult_stop * a))) ∧
    (atr_proxy_from_prices ((finiteVals prices).map some) atr_lookback = none →
      (breakout_signal prices window confirm_k buffer atr_lookback atr_mult_stop
          rr_take).stop =
        some (listMax (pyTakeLast (pyDropLast (finiteVals prices) confirm_k) window))) ∧
    (∀ st, (breakout_signal prices window confirm_k buffer atr_lookback atr_mult_stop
        rr_take).stop = some st →
      0 < (finiteVals prices).getLastD 0 - st →
      (breakout_signal prices window confirm_k buffer atr_lookback atr_mult_stop
          rr_take).tp =
        some ((finiteVals prices).getLastD 0 +
          rr_take * ((finiteVals prices).getLastD 0 - st))) := by
  have h1 : ¬ (finiteVals prices).length < window + confirm_k + 5 := by omega
  have h2 : ¬ (pyDropLast (finiteVals prices) confirm_k).length < window := by
    rw [length_pyDropLast _ _ hk]
    omega
  have hb : breakout_signal prices window confirm_k buffer atr_lookback
      atr_mult_stop rr_take =
      ⟨some Dir.LONG, some ((finiteVals prices).getLastD 0),
        some (stopLong
          (listMax (pyTakeLast (pyDropLast (finiteVals prices) confirm_k) window))
          atr_mult_stop
          (atr_proxy_from_prices ((finiteVals prices).map some) atr_lookback)),
        tpLong ((finiteVals prices).getLastD 0)
          (stopLong
            (listMax (pyTakeLast (pyDropLast (finiteVals prices) confirm_k) window))
            atr_mult_stop
            (atr_proxy_from_prices ((finiteVals prices).map some) atr_lookback))
          rr_take,
        some (listMax (pyTakeLast (pyDropLast (finiteVals prices) confirm_k) window)),
        BInfo.brokeUp⟩ := by
    simp only [breakout_signal]
    rw [if_neg h1, if_neg h2, if_pos hconf]
  refine ⟨by rw [hb], by rw [hb], by rw [hb], ?_, ?_, ?_⟩
  · intro a ha
    rw [hb]
    simp [stopLong, ha]
  · intro ha
    rw [hb]
    simp [stopLong, ha]
  · intro st hst hpos
    rw [hb] at hst
    have h3 : stopLong
        (listMax (pyTakeLast (pyDropLast (finiteVals prices) confirm_k) window))
        atr_mult_stop
        (atr_proxy_from_prices ((finiteVals prices).map some) atr_lookback) = st := by
      simpa using hst
    rw [hb]
    show tpLong ((finiteVals prices).getLastD 0) _ rr_take = _
    rw [h3]
    simp only [tpLong, if_pos hpos]

/-- Witness for C1: a strictly increasing 7-sample series with
`window = 1`, `confirm_k = 1`, `buffer = 1`, `atr_lookback = 1`,
`atr_mult_stop = 1/2`, `rr_take = 2`; here `H = 6`, `atrp = 4`,
`entry = 10`, `stop = min 6 4 = 4`, `target = 10 + 2 * 6 = 22`. -/
theorem c1_breakout_long_witness :
    1 ≤ 1 ∧
    1 + 1 + 5 ≤ (finiteVals [some 1, some 2, some 3, some 4, some 5, some 6,
      some 10]).length ∧
    (∀ x ∈ pyTakeLast (finiteVals [some 1, some 2, some 3, some 4, some 5,
        some 6, some 10]) 1,
      listMax (pyTakeLast (pyDropLast (finiteVals [some 1, some 2, some 3,
        some 4, some 5, some 6, some 10]) 1) 1) + 1 < x) ∧
    (breakout_signal [some 1, some 2, some 3, some 4, some 5, some 6, some 10]
      1 1 1 1 (1/2) 2).direction = some Dir.LONG ∧
    (breakout_signal [some 1, some 2, some 3, some 4, some 5, some 6, some 10]
      1 1 1 1 (1/2) 2).entry = some 10 ∧
    (breakout_signal [some 1, some 2, some 3, some 4, some 5, some 6, some 10]
      1 1 1 1 (1/2) 2).level = some 6 ∧
    (breakout_signal [some 1, some 2, some 3, some 4, some 5, some 6, some 10]
      1 1 1 1 (1/2) 2).stop = some 4 ∧
    (breakout_signal [some 1, some 2, some 3, some 4, some 5, some 6, some 10]
      1 1 1 1 (1/2) 2).tp = some 22 := by
  have hk : 1 ≤ 1 := le_refl 1
  have hlen : 1 + 1 + 5 ≤ (finiteVals [some 1, some 2, some 3, some 4, some 5,
      some 6, some 10]).length := by
    have e : (finiteVals [some 1, some 2, some 3, some 4, some 5, some 6,
      some (10:ℚ)]).length = 7 := rfl
    omega
  have hconf : ∀ x ∈ pyTakeLast (finiteVals [some 1, some 2, some 3, some 4,
      some 5, some 6, some 10]) 1,
      listMax (pyTakeLast (pyDropLast (finiteVals [some 1, some 2, some 3,
        some 4, some 5, some 6, some 10]) 1) 1) + 1 < x := by
    intro x hx
    have e1 : pyTakeLast (finiteVals [some 1, some 2, some 3, some 4, some 5,
      some 6, some (10:ℚ)]) 1 = [10] := rfl
    rw [e1] at hx
    simp only [List.mem_singleton] at hx
    subst hx
    have e2 : listMax (pyTakeLast (pyDropLast (finiteVals [some 1, some 2,
      some 3, some 4, some 5, some 6, some (10:ℚ)]) 1) 1) = 6 := rfl
    rw [e2]
    norm_num
  have h := c1_breakout_long [some 1, some 2, some 3, some 4, some 5, some 6,
    some 10] 1 1 1 1 (1/2) 2 hk hlen hconf
  have ha : atr_proxy_from_prices ((finiteVals [some 1, some 2, some 3, some 4,
      some 5, some 6, some 10]).map some) 1 = some 4 := by
    have hr : atr_proxy_from_prices ((finiteVals [some 1, some 2, some 3,
        some 4, some 5, some 6, some 10]).map some) 1
        = some (listMean (absDiffs [6, 10])) := rfl
    rw [hr]
    norm_num [absDiffs, listMean]
  have e2 : listMax (pyTakeLast (pyDropLast (finiteVals [some 1, some 2, some 3,
    some 4, some 5, some 6, some (10:ℚ)]) 1) 1) = 6 := rfl
  have eE : (finiteVals [some 1, some 2, some 3, some 4, some 5, some 6,
    some (10:ℚ)]).getLastD 0 = 10 := rfl
  have hstop : (breakout_signal [some 1, some 2, some 3, some 4, some 5, some 6,
      some 10] 1 1 1 1 (1/2) 2).stop = some 4 := by
    rw [h.2.2.2.1 4 ha, e2]
    norm_num [min_def]
  have htp : (breakout_signal [some 1, some 2, some 3, some 4, some 5, some 6,
      some 10] 1 1 1 1 (1/2) 2).tp = some 22 := by
    rw [h.2.2.2.2.2 4 hstop (by rw [eE]; norm_num), eE]
    norm_num
  exact ⟨hk, hlen, hconf, h.1, by rw [h.2.1, eE], by rw [h.2.2.1, e2], hstop, htp⟩

/-- C8: whenever the long confirmation condition and the short
confirmation condition hold simultaneously (possible only for a negative
buffer), `breakout_signal` returns LONG: the long condition takes
precedence. -/
theorem c8_long_precedence (prices : List (Option ℚ)) (window confirm_k : ℕ)
    (buffer : ℚ) (atr_lookback : ℕ) (atr_mult_stop rr_take : ℚ)
    (hk : 1 ≤ confirm_k)
    (hlen : window + confirm_k + 5 ≤ (finiteVals prices).length)
    (hlong : ∀ x ∈ pyTakeLast (finiteVals prices) confirm_k,
      listMax (pyTakeLast (pyDropLast (finiteVals prices) confirm_k) window)
        + buffer < x)
    (hshort : ∀ x ∈ pyTakeLast (finiteVals prices) confirm_k,
      x < listMin (pyTakeLast (pyDropLast (finiteVals prices) confirm_k) window)
        - buffer) :
    (breakout_signal prices window confirm_k buffer atr_lookback atr_mult_stop
      rr_take).direction = some Dir.LONG ∧
    (breakout_signal prices window confirm_k buffer atr_lookback atr_mult_stop
      rr_take).info = BInfo.brokeUp := by
  have h1 : ¬ (finiteVals prices).length < window + confirm_k + 5 := by omega
  have h2 : ¬ (pyDropLast (finiteVals prices) confirm_k).length < window := by
    rw [length_pyDropLast _ _ hk]
    omega
  constructor <;>
    · simp only [breakout_signal]
      rw [if_neg h1, if_neg h2, if_pos hlong]

/-- Witness for C8: a flat all-100 series with `buffer = -10` makes both
confirmation conditions hold; the result is LONG. -/
theorem c8_long_precedence_witness :
    1 ≤ 1 ∧
    (∀ x ∈ pyTakeLast (finiteVals [some 100, some 100, some 100, some 100,
        some 100, some 100, some 100]) 1,
      listMax (pyTakeLast (pyDropLast (finiteVals [some 100, some 100, some 100,
        some 100, some 100, some 100, some 100]) 1) 1) + (-10) < x) ∧
    (∀ x ∈ pyTakeLast (finiteVals [some 100, some 100, some 100, some 100,
        some 100, some 100, some 100]) 1,
      x < listMin (pyTakeLast (pyDropLast (finiteVals [some 100, some 100,
        some 100, some 100, some 100, some 100, some 100]) 1) 1) - (-10)) ∧
    (breakout_signal [some 100, some 100, some 100, some 100, some 100,
      some 100, some 100] 1 1 (-10) 1 (1/2) 2).direction = some Dir.LONG := by
  have hk : 1 ≤ 1 := le_refl 1
  have hlen : 1 + 1 + 5 ≤ (finiteVals [some 100, some 100, some 100, some 100,
      some 100, some 100, some (100:ℚ)]).length := by
    have e : (finiteVals [some 100, some 100, some 100, some 100, some 100,
      some 100, some (100:ℚ)]).length = 7 := rfl
    omega
  have e1 : pyTakeLast (finiteVals [some 100, some 100, some 100, some 100,
    some 100, some 100, some (100:ℚ)]) 1 = [100] := rfl
  have e2 : listMax (pyTakeLast (pyDropLast (finiteVals [some 100, some 100,
    some 100, some 100, some 100, some 100, some (100:ℚ)]) 1) 1) = 100 := rfl
  have e3 : listMin (pyTakeLast (pyDropLast (finiteVals [some 100, some 100,
    some 100, some 100, some 100, some 100, some (100:ℚ)]) 1) 1) = 100 := rfl
  have hlong : ∀ x ∈ pyTakeLast (finiteVals [some 100, some 100, some 100,
      some 100, some 100, some 100, some 100]) 1,
      listMax (pyTakeLast (pyDropLast (finiteVals [some 100, some 100, some 100,
        some 100, some 100, some 100, some 100]) 1) 1) + (-10) < x := by
    intro x hx
    rw [e1] at hx
    simp only [List.mem_singleton] at hx
    subst hx
    rw [e2]
    norm_num
  have hshort : ∀ x ∈ pyTakeLast (finiteVals [some 100, some 100, some 100,
      some 100, some 100, some 100, some 100]) 1,
      x < listMin (pyTakeLast (pyDropLast (finiteVals [some 100, some 100,
        some 100, some 100, some 100, some 100, some 100]) 1) 1) - (-10) := by
    intro x hx
    rw [e1] at hx
    simp only [List.mem_singleton] at hx
    subst hx
    rw [e3]
    norm_num
  exact ⟨hk, hlong, hshort,
    (c8_long_precedence [some 100, some 100, some 100, some 100, some 100,
      some 100, some 100] 1 1 (-10) 1 (1/2) 2 hk hlen hlong hshort).1⟩

/-- C10: with `atr_mult_stop ≥ 0` and `buffer ≥ 0`, any emitted signal
carries a strictly positive risk (`entry - stop` for LONG, `stop - entry`
for SHORT) and hence a defined target price: the undefined-target branch
is unreachable on an emitted signal. -/
theorem c10_emitted_has_target (prices : List (Option ℚ)) (window confirm_k : ℕ)
    (buffer : ℚ) (atr_lookback : ℕ) (atr_mult_stop rr_take : ℚ)
    (hM : 0 ≤ atr_mult_stop) (hB : 0 ≤ buffer)
    (hemit : (breakout_signal prices window confirm_k buffer atr_lookback
      atr_mult_stop rr_take).direction ≠ none) :
    ∃ en st t : ℚ,
      (breakout_signal prices window confirm_k buffer atr_lookback atr_mult_stop
        rr_take).entry = some en ∧
      (breakout_signal prices window confirm_k buffer atr_lookback atr_mult_stop
        rr_take).stop = some st ∧
      (breakout_signal prices window confirm_k buffer atr_lookback atr_mult_stop
        rr_take).tp = some t ∧
      ((breakout_signal prices window confirm_k buffer atr_lookback atr_mult_stop
        rr_take).direction = some Dir.LONG → 0 < en - st) ∧
      ((breakout_signal prices window confirm_k buffer atr_lookback atr_mult_stop
        rr_take).direction = some Dir.SHORT → 0 < st - en) := by
  by_cases h1 : (finiteVals prices).length < window + confirm_k + 5
  · exact absurd (by simp [breakout_signal, h1]) hemit
  by_cases h2 : (pyDropLast (finiteVals prices) confirm_k).length < window
  · exact absurd (by simp [breakout_signal, h1, h2]) hemit
  have hser : finiteVals prices ≠ [] := by
    intro hh
    rw [hh] at h1
    simp at h1
  have hmem : (finiteVals prices).getLastD 0 ∈
      pyTakeLast (finiteVals prices) confirm_k :=
    getLastD_mem_pyTakeLast _ _ _ hser
  by_cases h3 : ∀ x ∈ pyTakeLast (finiteVals prices) confirm_k,
      listMax (pyTakeLast (pyDropLast (finiteVals prices) confirm_k) window)
        + buffer < x
  · have hb : breakout_signal prices window confirm_k buffer atr_lookback
        atr_mult_stop rr_take =
        ⟨some Dir.LONG, some ((finiteVals prices).getLastD 0),
          some (stopLong
            (listMax (pyTakeLast (pyDropLast (finiteVals prices) confirm_k) window))
            atr_mult_stop
            (atr_proxy_from_prices ((finiteVals prices).map some) atr_lookback)),
          tpLong ((finiteVals prices).getLastD 0)
            (stopLong
              (listMax (pyTakeLast (pyDropLast (finiteVals prices) confirm_k) window))
              atr_mult_stop
              (atr_proxy_from_prices ((finiteVals prices).map some) atr_lookback))
            rr_take,
          some (listMax (pyTakeLast (pyDropLast (finiteVals prices) confirm_k) window)),
          BInfo.brokeUp⟩ := by
      simp only [breakout_signal]
      rw [if_neg h1, if_neg h2, if_pos h3]
    have hgt := h3 _ hmem
    have hSle : stopLong
        (listMax (pyTakeLast (pyDropLast (finiteVals prices) confirm_k) window))
        atr_mult_stop
        (atr_proxy_from_prices ((finiteVals prices).map some) atr_lookback) ≤
        listMax (pyTakeLast (pyDropLast (finiteVals prices) confirm_k) window) :=
      min_le_left _ _
    have hrisk : 0 < (finiteVals prices).getLastD 0 -
        stopLong
          (listMax (pyTakeLast (pyDropLast (finiteVals prices) confirm_k) window))
          atr_mult_stop
          (atr_proxy_from_prices ((finiteVals prices).map some) atr_lookback) := by
      linarith
    refine ⟨(finiteVals prices).getLastD 0,
      stopLong (listMax (pyTakeLast (pyDropLast (finiteVals prices) confirm_k) window))
        atr_mult_stop (atr_proxy_from_prices ((finiteVals prices).map some) atr_lookback),
      (finiteVals prices).getLastD 0 + rr_take *
        ((finiteVals prices).getLastD 0 -
          stopLong (listMax (pyTakeLast (pyDropLast (finiteVals prices) confirm_k) window))
            atr_mult_stop (atr_proxy_from_prices ((finiteVals prices).map some) atr_lookback)),
      ?_, ?_, ?_, fun _ => hrisk, ?_⟩
    · rw [hb]
    · rw [hb]
    · rw [hb]
      show tpLong _ _ rr_take = _
      simp only [tpLong, if_pos hrisk]
    · intro hd
      rw [hb] at hd
      simp at hd
  by_cases h4 : ∀ x ∈ pyTakeLast (finiteVals prices) confirm_k,
      x < listMin (pyTakeLast (pyDropLast (finiteVals prices) confirm_k) window)
        - buffer
  · have hb : breakout_signal prices window confirm_k buffer atr_lookback
        atr_mult_stop rr_take =
        ⟨some Dir.SHORT, some ((finiteVals prices).getLastD 0),
          some (stopShort
            (listMin (pyTakeLast (pyDropLast (finiteVals prices) confirm_k) window))
            atr_mult_stop
            (atr_proxy_from_prices ((finiteVals prices).map some) atr_lookback)),
          tpShort ((finiteVals prices).getLastD 0)
            (stopShort
              (listMin (pyTakeLast (pyDropLast (finiteVals prices) confirm_k) window))
              atr_mult_stop
              (atr_proxy_from_prices ((finiteVals prices).map some) atr_lookback))
            rr_take,
          some (listMin (pyTakeLast (pyDropLast (finiteVals prices) confirm_k) window)),
          BInfo.brokeDown⟩ := by
      simp only [breakout_signal]
      rw [if_neg h1, if_neg h2, if_neg h3, if_pos h4]
    have hlt := h4 _ hmem
    have hSge : listMin (pyTakeLast (pyDropLast (finiteVals prices) confirm_k) window) ≤
        stopShort
          (listMin (pyTakeLast (pyDropLast (finiteVals prices) confirm_k) window))
          atr_mult_stop
          (atr_proxy_from_prices ((finiteVals prices).map some) atr_lookback) :=
      le_max_left _ _
    have hrisk : 0 < stopShort
          (listMin (pyTakeLast (pyDropLast (finiteVals prices) confirm_k) window))
          atr_mult_stop
          (atr_proxy_from_prices ((finiteVals prices).map some) atr_lookback) -
        (finiteVals prices).getLastD 0 := by
      linarith
    refine ⟨(finiteVals prices).getLastD 0,
      stopShort (listMin (pyTakeLast (pyDropLast (finiteVals prices) confirm_k) window))
        atr_mult_stop (atr_proxy_from_prices ((finiteVals prices).map some) atr_lookback),
      (finiteVals prices).getLastD 0 - rr_take *
        (stopShort (listMin (pyTakeLast (pyDropLast (finiteVals prices) confirm_k) window))
            atr_mult_stop (atr_proxy_from_prices ((finiteVals prices).map some) atr_lookback) -
          (finiteVals prices).getLastD 0),
      ?_, ?_, ?_, ?_, fun _ => hrisk⟩
    · rw [hb]
    · rw [hb]
    · rw [hb]
      show tpShort _ _ rr_take = _
      simp only [tpShort, if_pos hrisk]
    · intro hd
      rw [hb] at hd
      simp at hd
  · exact absurd (by
      simp only [breakout_signal]
      rw [if_neg h1, if_neg h2, if_neg h3, if_neg h4]) hemit

/-- Witness for C10 at the C1 example configuration: a signal is emitted
and the target is defined. -/
theorem c10_emitted_has_target_witness :
    0 ≤ (1/2 : ℚ) ∧ 0 ≤ (1 : ℚ) ∧
    (breakout_signal [some 1, some 2, some 3, some 4, some 5, some 6, some 10]
      1 1 1 1 (1/2) 2).direction ≠ none ∧
    ∃ en st t : ℚ,
      (breakout_signal [some 1, some 2, some 3, some 4, some 5, some 6, some 10]
        1 1 1 1 (1/2) 2).entry = some en ∧
      (breakout_signal [some 1, some 2, some 3, some 4, some 5, some 6, some 10]
        1 1 1 1 (1/2) 2).stop = some st ∧
      (breakout_signal [some 1, some 2, some 3, some 4, some 5, some 6, some 10]
        1 1 1 1 (1/2) 2).tp = some t ∧
      ((breakout_signal [some 1, some 2, some 3, some 4, some 5, some 6, some 10]
        1 1 1 1 (1/2) 2).direction = some Dir.LONG → 0 < en - st) ∧
      ((breakout_signal [some 1, some 2, some 3, some 4, some 5, some 6, some 10]
        1 1 1 1 (1/2) 2).direction = some Dir.SHORT → 0 < st - en) := by
  have hM : 0 ≤ (1/2 : ℚ) := by norm_num
  have hB : 0 ≤ (1 : ℚ) := by norm_num
  have hemit : (breakout_signal [some 1, some 2, some 3, some 4, some 5, some 6,
      some 10] 1 1 1 1 (1/2) 2).direction ≠ none := by
    have h1 : ¬ (finiteVals [some 1, some 2, some 3, some 4, some 5, some 6,
        some (10:ℚ)]).length < 1 + 1 + 5 := by
      have e : (finiteVals [some 1, some 2, some 3, some 4, some 5, some 6,
        some (10:ℚ)]).length = 7 := rfl
      omega
    have h2 : ¬ (pyDropLast (finiteVals [some 1, some 2, some 3, some 4, some 5,
        some 6, some (10:ℚ)]) 1).length < 1 := by
      have e : (pyDropLast (finiteVals [some 1, some 2, some 3, some 4, some 5,
        some 6, some (10:ℚ)]) 1).length = 6 := rfl
      omega
    have h3 : ∀ x ∈ pyTakeLast (finiteVals [some 1, some 2, some 3, some 4,
        some 5, some 6, some 10]) 1,
        listMax (pyTakeLast (pyDropLast (finiteVals [some 1, some 2, some 3,
          some 4, some 5, some 6, some 10]) 1) 1) + 1 < x := by
      intro x hx
      have e1 : pyTakeLast (finiteVals [some 1, some 2, some 3, some 4, some 5,
        some 6, some (10:ℚ)]) 1 = [10] := rfl
      rw [e1] at hx
      simp only [List.mem_singleton] at hx
      subst hx
      have e2 : listMax (pyTakeLast (pyDropLast (finiteVals [some 1, some 2,
        some 3, some 4, some 5, some 6, some (10:ℚ)]) 1) 1) = 6 := rfl
      rw [e2]
      norm_num
    have hb : (breakout_signal [some 1, some 2, some 3, some 4, some 5, some 6,
        some 10] 1 1 1 1 (1/2) 2).direction = some Dir.LONG := by
      simp only [breakout_signal]
      rw [if_neg h1, if_neg h2, if_pos h3]
    rw [hb]
    simp
  exact ⟨hM, hB, hemit,
    c10_emitted_has_target [some 1, some 2, some 3, some 4, some 5, some 6,
      some 10] 1 1 1 1 (1/2) 2 hM hB hemit⟩

/-- C3: `zscore_from_list` returns the undefined sentinel exactly when
the input has fewer than 20 finite samples or the sample standard
deviation (the square root of the unbiased sample variance, zero iff the
variance is zero, as the second conjunct records) is exactly zero;
otherwise it returns (last finite value - mean of finite values) divided
by the unbiased standard deviation of the finite values. -/
theorem c3_zscore_contract (values : List (Option ℚ)) :
    zscore_from_list values =
      (if (finiteVals values).length < 20 then none
       else if sampleVar (finiteVals values) = 0 then none
       else some (((((finiteVals values).getLastD 0 : ℚ) : ℝ) -
           ((listMean (finiteVals values) : ℚ) : ℝ)) /
         Real.sqrt ((sampleVar (finiteVals values) : ℚ) : ℝ))) ∧
    (Real.sqrt ((sampleVar (finiteVals values) : ℚ) : ℝ) = 0 ↔
      sampleVar (finiteVals values) = 0) := by
  refine ⟨?_, sqrt_sampleVar_eq_zero_iff _⟩
  by_cases h1 : (finiteVals values).length < 20
  · simp [zscore_from_list, h1]
  · by_cases h2 : sampleVar (finiteVals values) = 0
    · have hs : Real.sqrt ((sampleVar (finiteVals values) : ℚ) : ℝ) = 0 :=
        (sqrt_sampleVar_eq_zero_iff _).2 h2
      simp [zscore_from_list, h1, h2, hs]
    · have hs : ¬ Real.sqrt ((sampleVar (finiteVals values) : ℚ) : ℝ) = 0 :=
        fun hh => h2 ((sqrt_sampleVar_eq_zero_iff _).1 hh)
      simp [zscore_from_list, h1, h2, hs]

/-- C7: the volatility proxy returns the undefined sentinel when the
list holds fewer than `lookback + 2` finite samples, and otherwise (for
a positive lookback, as the validated configuration guarantees) returns
the arithmetic mean of the absolute consecutive differences over the
most recent `lookback + 1` finite samples, which form exactly `lookback`
difference terms. -/
theorem c7_atr_proxy_contract (prices : List (Option ℚ)) (lookback : ℕ)
    (h : 1 ≤ lookback) :
    atr_proxy_from_prices prices lookback =
      (if (finiteVals prices).length < lookback + 2 then none
       else some (listMean
         (absDiffs (pyTakeLast (finiteVals prices) (lookback + 1))))) ∧
    (lookback + 2 ≤ (finiteVals prices).length →
      (absDiffs (pyTakeLast (finiteVals prices) (lookback + 1))).length
        = lookback) := by
  have hlenval : lookback + 2 ≤ (finiteVals prices).length →
      (absDiffs (pyTakeLast (finiteVals prices) (lookback + 1))).length
        = lookback := by
    intro hge
    rw [pyTakeLast_pos _ _ (by omega), length_absDiffs, length_takeLast]
    omega
  refine ⟨?_, hlenval⟩
  by_cases hlen : (finiteVals prices).length < lookback + 2
  · simp [atr_proxy_from_prices, hlen]
  · have hterms := hlenval (by omega)
    have hne : ¬ (absDiffs (pyTakeLast (finiteVals prices)
        (lookback + 1))).length = 0 := by
      rw [hterms]
      omega
    simp [atr_proxy_from_prices, hlen, hne]

/-- Witness for C7: three finite samples with `lookback = 1`; the last
two samples are `[2, 4]`, giving the single difference term `2` whose
mean is `2`. -/
theorem c7_atr_proxy_contract_witness :
    1 ≤ 1 ∧
    atr_proxy_from_prices [some 1, some 2, some 4] 1 = some 2 ∧
    (absDiffs (pyTakeLast (finiteVals [some 1, some 2, some 4]) (1 + 1))).length
      = 1 := by
  have h := c7_atr_proxy_contract [some 1, some 2, some 4] 1 (le_refl 1)
  refine ⟨le_refl 1, ?_, ?_⟩
  · rw [h.1]
    have hlen : ¬ (finiteVals [some 1, some 2, some (4:ℚ)]).length < 1 + 2 := by
      have e : (finiteVals [some 1, some 2, some (4:ℚ)]).length = 3 := rfl
      omega
    rw [if_neg hlen]
    have e2 : absDiffs (pyTakeLast (finiteVals [some 1, some 2, some (4:ℚ)])
      (1 + 1)) = absDiffs [2, 4] := rfl
    rw [e2]
    norm_num [absDiffs, listMean]
  · exact h.2 (by
      have e : (finiteVals [some 1, some 2, some (4:ℚ)]).length = 3 := rfl
      omega)

/-- C5 counterexample: the claim reads an unrecorded key as "never
emitted", under which the gate should open unconditionally; but the code
defaults an unrecorded key to timestamp `0.0`, so at wall-clock time `0`
with cooldown `60` the gate stays shut on a fresh table.  The stated
equivalence is therefore false at this concrete input. -/
theorem c5_counterexample_never_emitted :
    ¬ (((can_emit_signal [] "2605" "nf_y2605" "LONG" 60 0).1 = true) ↔
      (match dictFind ([] : List ((String × String × String) × ℚ))
          ("2605", "nf_y2605", "LONG") with
        | none => True
        | some ts => (60 : ℚ) ≤ 0 - ts)) := by
  intro h
  have hRHS : (match dictFind ([] : List ((String × String × String) × ℚ))
      ("2605", "nf_y2605", "LONG") with
    | none => True
    | some ts => (60 : ℚ) ≤ 0 - ts) := by
    simp [dictFind]
  have h2 : (can_emit_signal [] "2605" "nf_y2605" "LONG" 60 0).1 = true :=
    h.2 hRHS
  have h3 : (can_emit_signal ([] : List ((String × String × String) × ℚ))
      "2605" "nf_y2605" "LONG" 60 0).1 = false := by
    norm_num [can_emit_signal, may_emit, dictGet, dictFind]
  rw [h3] at h2
  exact Bool.false_ne_true h2

/-- C5 (amended): the debounce gate returns true and records the current
time as the key last-emission time exactly when the elapsed time since
the key last recorded emission -- with an unrecorded key treated as last
emitted at timestamp 0, the clock origin -- is at least the cooldown;
otherwise it returns false and leaves the table unchanged.  Consequently
two calls for the same key within one cooldown window return
(true, false), and a later call after the cooldown has elapsed returns
true again. -/
theorem c5_debounce_amended (t : List ((String × String × String) × ℚ))
    (g sy d : String) (c now1 now2 now3 : ℚ)
    (h1 : c ≤ now1 - dictGet t (g, sy, d) 0)
    (h2 : now2 - now1 < c)
    (h3 : c ≤ now3 - now1) :
    (∀ (tbl : List ((String × String × String) × ℚ)) (n : ℚ),
      ((can_emit_signal tbl g sy d c n).1 = true ↔
        c ≤ n - dictGet tbl (g, sy, d) 0) ∧
      ((can_emit_signal tbl g sy d c n).1 = true →
        dictFind (can_emit_signal tbl g sy d c n).2 (g, sy, d) = some n) ∧
      ((can_emit_signal tbl g sy d c n).1 = false →
        (can_emit_signal tbl g sy d c n).2 = tbl)) ∧
    (can_emit_signal t g sy d c now1).1 = true ∧
    (can_emit_signal (can_emit_signal t g sy d c now1).2 g sy d c now2).1
      = false ∧
    (can_emit_signal (can_emit_signal (can_emit_signal t g sy d c now1).2
      g sy d c now2).2 g sy d c now3).1 = true := by
  have hgen : ∀ (tbl : List ((String × String × String) × ℚ)) (n : ℚ),
      ((can_emit_signal tbl g sy d c n).1 = true ↔
        c ≤ n - dictGet tbl (g, sy, d) 0) ∧
      ((can_emit_signal tbl g sy d c n).1 = true →
        dictFind (can_emit_signal tbl g sy d c n).2 (g, sy, d) = some n) ∧
      ((can_emit_signal tbl g sy d c n).1 = false →
        (can_emit_signal tbl g sy d c n).2 = tbl) := by
    intro tbl n
    refine ⟨?_, ?_, ?_⟩
    · by_cases hc : c ≤ n - dictGet tbl (g, sy, d) 0 <;>
        simp [can_emit_signal, may_emit, hc]
    · intro htrue
      by_cases hc : c ≤ n - dictGet tbl (g, sy, d) 0
      · simp [can_emit_signal, may_emit, hc, dictFind_insert_self]
      · simp [can_emit_signal, may_emit, hc] at htrue
    · intro hfalse
      by_cases hc : c ≤ n - dictGet tbl (g, sy, d) 0
      · simp [can_emit_signal, may_emit, hc] at hfalse
      · simp [can_emit_signal, may_emit, hc]
  have hfirst : (can_emit_signal t g sy d c now1).1 = true :=
    (hgen t now1).1.mpr h1
  have hrec : dictFind (can_emit_signal t g sy d c now1).2 (g, sy, d)
      = some now1 := (hgen t now1).2.1 hfirst
  have hget1 : dictGet (can_emit_signal t g sy d c now1).2 (g, sy, d) 0
      = now1 := by
    unfold dictGet
    rw [hrec]
    rfl
  have hsecond : (can_emit_signal (can_emit_signal t g sy d c now1).2
      g sy d c now2).1 = false := by
    have hnot : ¬ ((can_emit_signal (can_emit_signal t g sy d c now1).2
        g sy d c now2).1 = true) := by
      rw [(hgen _ now2).1, hget1]
      linarith
    simpa using hnot
  have hunch : (can_emit_signal (can_emit_signal t g sy d c now1).2
      g sy d c now2).2 = (can_emit_signal t g sy d c now1).2 :=
    (hgen _ now2).2.2 hsecond
  refine ⟨hgen, hfirst, hsecond, ?_⟩
  rw [hunch, (hgen _ now3).1, hget1]
  exact h3

/-- Witness for C5 (amended): fresh table, cooldown 60, calls at times
100, 130 and 200 return true, false, true. -/
theorem c5_debounce_amended_witness :
    ((60 : ℚ) ≤ 100 - dictGet ([] : List ((String × String × String) × ℚ))
      ("2605", "nf_y2605", "LONG") 0 ∧
     (130 : ℚ) - 100 < 60 ∧
     (60 : ℚ) ≤ 200 - 100) ∧
    (can_emit_signal [] "2605" "nf_y2605" "LONG" 60 100).1 = true ∧
    (can_emit_signal (can_emit_signal [] "2605" "nf_y2605" "LONG" 60 100).2
      "2605" "nf_y2605" "LONG" 60 130).1 = false ∧
    (can_emit_signal (can_emit_signal (can_emit_signal [] "2605" "nf_y2605"
      "LONG" 60 100).2 "2605" "nf_y2605" "LONG" 60 130).2
      "2605" "nf_y2605" "LONG" 60 200).1 = true := by
  have h1 : (60 : ℚ) ≤ 100 - dictGet
      ([] : List ((String × String × String) × ℚ))
      ("2605", "nf_y2605", "LONG") 0 := by
    norm_num [dictGet, dictFind]
  have h2 : (130 : ℚ) - 100 < 60 := by norm_num
  have h3 : (60 : ℚ) ≤ 200 - 100 := by norm_num
  have h := c5_debounce_amended [] "2605" "nf_y2605" "LONG" 60 100 130 200
    h1 h2 h3
  exact ⟨⟨h1, h2, h3⟩, h.2.1, h.2.2.1, h.2.2.2⟩
